import Mathlib

/-
Verification development for the color_correction repository
(batch color correction of images against a color-reference card).

The embedding models `src/batch_correct.py` (with `src/get_ref_color_matrix.py`
for matrix persistence).  Machine floating-point values are modelled as exact
rationals; images (rasters) are lists of rows of pixels, a pixel being a
function `Fin 3 → ℚ`; color matrices are lists of rows of rationals, as
produced by `plantcv.transform.get_color_matrix` (one row per card patch:
a patch label followed by the three channel means).  External collaborators
(rawpy decoding, the PlantCV card locator, the PlantCV patch sampler and
affine solver) are modelled from the specification where their code is not
part of this repository; each such definition is marked in its doc comment.
-/

namespace ColorCorrection

/-- A pixel: three channel intensities (exact-rational model of 8-bit values). -/
abbrev Pix := Fin 3 → ℚ

/-- An image raster: rows of pixels. -/
abbrev Raster := List (List Pix)

/-- A patch mask: label raster, `0` is background, nonzero values label patches. -/
abbrev Mask := List (List ℕ)

/-- A color matrix as handled by the scripts: a list of rows of rationals.
In this pipeline each row is `[patch label, mean ch0, mean ch1, mean ch2]`. -/
abbrev ColorMatrix := List (List ℚ)

/-! ## Orientation resolution (src/batch_correct.py lines 272-282)

The script computes `np.linalg.norm(color_matrix - ref_color_matrix)` for the
normal and the vertically flipped candidate and keeps the flipped candidate
when `diff_normal >= diff_flipped`.  Since the Euclidean norm is the square
root of the sum of squared differences and the square root is strictly
monotone on nonnegative reals, comparing norms is equivalent to comparing the
sums of squares; the embedding compares the (exactly representable) sums of
squares. -/

/-- Sum of squared differences of two rows (elementwise, zipped). -/
def sqDiffRow (a b : List ℚ) : ℚ :=
  ((a.zip b).map (fun p => (p.1 - p.2) ^ 2)).sum

/-- Sum of squared differences of two matrices: the square of
`np.linalg.norm(a - b)` for same-shaped `a`, `b`. -/
def normSqDiff (a b : ColorMatrix) : ℚ :=
  ((a.zip b).map (fun p => sqDiffRow p.1 p.2)).sum

/-- Orientation selection from `apply_color_correction`:
`if diff_normal >= diff_flipped: color_matrix = color_matrix_ud`.
The flipped candidate is kept exactly when its distance is less than or
equal to the normal candidate's distance. -/
def selectOrientation (cm cmud ref : ColorMatrix) : ColorMatrix :=
  if normSqDiff cmud ref ≤ normSqDiff cm ref then cmud else cm

/-- C1 (counterexample): at an exact tie of the two orientation distances the
code selects the *flipped* candidate, not the non-flipped one claimed by the
spec.  With candidate `[[2]]`, flipped candidate `[[0]]` and reference
`[[1]]`, both distances are `1`, yet the code's selection is the flipped
matrix `[[0]]`, which differs from the non-flipped `[[2]]`. -/
theorem selectOrientation_tie_cex :
    normSqDiff [[2]] [[1]] = normSqDiff [[0]] [[1]] ∧
    selectOrientation [[2]] [[0]] [[1]] = [[0]] ∧
    ([[0]] : ColorMatrix) ≠ [[2]] := by
  refine ⟨by norm_num [normSqDiff, sqDiffRow], ?_, by simp⟩
  rw [selectOrientation, if_pos (by norm_num [normSqDiff, sqDiffRow])]

/-- C1 (amended): orientation resolution selects the orientation whose
distance to the reference matrix is strictly smaller; when the two distances
are exactly equal it selects the *flipped* candidate (the code's comparison
`diff_normal >= diff_flipped` is non-strict in favor of the flipped one). -/
theorem selectOrientation_spec (cm cmud ref : ColorMatrix) :
    (normSqDiff cmud ref < normSqDiff cm ref →
      selectOrientation cm cmud ref = cmud) ∧
    (normSqDiff cm ref < normSqDiff cmud ref →
      selectOrientation cm cmud ref = cm) ∧
    (normSqDiff cm ref = normSqDiff cmud ref →
      selectOrientation cm cmud ref = cmud) := by
  unfold selectOrientation
  split_ifs with h
  · exact ⟨fun _ => rfl, fun hlt => absurd h (not_le.mpr hlt), fun _ => rfl⟩
  · refine ⟨fun hlt => absurd hlt.le h, fun _ => rfl, fun heq => absurd heq.ge h⟩

/-- C1 witness: the amended theorem applied at a concrete tie
(`[[2]]` vs `[[0]]` against reference `[[1]]`). -/
theorem selectOrientation_spec_witness :
    selectOrientation [[2]] [[0]] [[1]] = [[0]] :=
  (selectOrientation_spec [[2]] [[0]] [[1]]).2.2
    (by norm_num [normSqDiff, sqDiffRow])

/-! ## Suffix lists and file selection (src/batch_correct.py lines 22-23, 320-324)

Python's `str.lower` is modelled for ASCII letters (the suffix tokens the
script handles are ASCII); `str.endswith` is suffix matching on the
character sequence.  Python's `list.sort()` on strings is lexicographic on
code points, modelled by `strLe`. -/

/-- Recognized RAW suffix tokens (config constant of the script). -/
def RAW_SUFFIX_LST : List String := [ "RAW", "raw", "ARW", "arw", "NEF", "nef"]

/-- Recognized TIFF/PNG suffix tokens (config constant of the script). -/
def TIF_PNG_SUFFIX_LST : List String :=
  [ "TIFF", "tiff", "TIF", "tif", "PNG", "png"]

/-- ASCII lowercase of a character (model of Python `str.lower` on the
ASCII range used by the recognized suffix tokens). -/
def lowerChar (c : Char) : Char :=
  if 65 ≤ c.toNat ∧ c.toNat ≤ 90 then Char.ofNat (c.toNat + 32) else c

/-- Lowercase of a string, character by character. -/
def lowerStr (s : String) : String := String.mk (s.data.map lowerChar)

/-- Model of Python `str.endswith`. -/
def endsWithStr (s suf : String) : Bool := suf.data.isSuffixOf s.data

/-- Lexicographic (code-point) order on character lists, the order Python's
`list.sort()` uses on strings. -/
def charLexLe : List Char → List Char → Bool
  | [], _ => true
  | _ :: _, [] => false
  | x :: xs, y :: ys => if x = y then charLexLe xs ys else decide (x < y)

/-- Lexicographic order on strings. -/
def strLe (a b : String) : Bool := charLexLe a.data b.data

/-- The input-file filter of `main`:
`[x for x in os.listdir(input_dir_path) if x.lower().endswith(img_format.lower())]`
followed by `target_image_lst.sort()`. -/
def targetImageLst (files : List String) (fmt : String) : List String :=
  (files.filter (fun x => endsWithStr (lowerStr x) (lowerStr fmt))).mergeSort
    strLe

/-! ## Reference-matrix file parsing (src/batch_correct.py lines 209-220)

`read_ref_color_matrix` is `np.loadtxt(ref_path, delimiter='\t')`.  A file is
modelled as its lines, each line a list of fields; a field either parses as a
number (carrying its value) or does not.  `np.loadtxt` skips blank lines,
fails when a field is not numeric or when the rows have unequal lengths, and
performs no validation of the resulting shape. -/

/-- A field of a TSV line: numeric (with its parsed value) or unparsable. -/
inductive Tok
  | num (q : ℚ)
  | junk
deriving DecidableEq

/-- Is the field numeric? -/
def Tok.isNum : Tok → Bool
  | .num _ => true
  | .junk => false

/-- Value of a numeric field (`0` for the unreachable non-numeric case). -/
def Tok.val : Tok → ℚ
  | .num q => q
  | .junk => 0

/-- Errors of reference-matrix resolution. -/
inductive RefErr
  | malformedReferenceMatrix
  | unsupportedReferenceFormat
deriving DecidableEq

/-- All rows have the length of the first row. -/
def sameLengths (rows : List (List Tok)) : Bool :=
  rows.all (fun l => l.length == (rows.head?.getD []).length)

/-- Model of `read_ref_color_matrix` = `np.loadtxt(ref_path, delimiter='\t')`:
skip blank lines, require every field numeric and all rows of equal length,
and return the numeric matrix.  No shape expectation is checked. -/
def read_ref_color_matrix (f : List (List Tok)) : Except RefErr ColorMatrix :=
  let rows := f.filter (fun l => !l.isEmpty)
  if (rows.all (fun l => l.all Tok.isNum)) ∧ sameLengths rows then
    .ok (rows.map (List.map Tok.val))
  else
    .error .malformedReferenceMatrix

/-- C7 (amended): parsing a persisted reference-matrix file yields the
numeric matrix of whatever uniform shape the file has, or fails when a field
is not numeric or the rows are ragged; no expected-shape check is made. -/
theorem read_ref_color_matrix_spec (f : List (List Tok)) :
    ((f.filter (fun l => !l.isEmpty)).all (fun l => l.all Tok.isNum) ∧
        sameLengths (f.filter (fun l => !l.isEmpty)) →
      read_ref_color_matrix f =
        .ok ((f.filter (fun l => !l.isEmpty)).map (List.map Tok.val))) ∧
    (¬ ((f.filter (fun l => !l.isEmpty)).all (fun l => l.all Tok.isNum) ∧
        sameLengths (f.filter (fun l => !l.isEmpty))) →
      read_ref_color_matrix f = .error .malformedReferenceMatrix) := by
  unfold read_ref_color_matrix
  constructor
  · intro h; rw [if_pos h]
  · intro h; rw [if_neg h]

/-- C7 witness: a well-formed two-line file parses to its numeric matrix. -/
theorem read_ref_color_matrix_spec_witness :
    read_ref_color_matrix [[Tok.num 1, Tok.num 2], [Tok.num 3, Tok.num 4]] =
      .ok [[1, 2], [3, 4]] := by
  have h := (read_ref_color_matrix_spec
    [[Tok.num 1, Tok.num 2], [Tok.num 3, Tok.num 4]]).1 (by decide)
  simpa using h

/-- C7 (counterexample): a numeric file of the wrong shape (2 rows of 2
columns, instead of the expected 24 rows of channel means) is accepted as a
reference matrix; the parser never rejects a shape. -/
theorem read_ref_color_matrix_shape_cex :
    read_ref_color_matrix [[Tok.num 5, Tok.num 6], [Tok.num 7, Tok.num 8]] =
      .ok [[5, 6], [7, 8]] ∧
    ([[5, 6], [7, 8]] : ColorMatrix).length ≠ 24 ∧
    (([[5, 6], [7, 8]] : ColorMatrix).head?.getD []).length ≠ 3 := by
  refine ⟨?_, by decide, by decide⟩
  unfold read_ref_color_matrix
  rw [if_pos (by decide)]
  simp [Tok.val]

/-! ## Reference dispatch and the batch loop (src/batch_correct.py lines
331-385)

The reference source is dispatched by string-suffix inspection: the
image-extraction path when the image format token is recognized and
`ref_path.lower().endswith(img_format.lower())`, otherwise the matrix-file
path when `ref_path.endswith('.tsv')`, otherwise an error and `sys.exit()`
before the image loop.

The per-image loop has no exception handler: an uncaught per-image failure
(e.g. the PlantCV detector raising because no card is found) terminates the
process, keeping the output files already written and leaving the remaining
images unprocessed.  `batchLoop` models exactly this: it folds the per-image
step over the image list and stops at the first failure. -/

/-- Per-image pipeline errors. -/
inductive PipeErr
  | cardNotFound
  | unsupportedImageFormat
  | matrixShapeMismatch
deriving DecidableEq

/-- Which reference-resolution path `main` takes. -/
inductive RefKind
  | imageExtract
  | matrixFile
deriving DecidableEq

/-- The `.tsv` suffix checked by `main`. -/
def tsvSuffix : String := ".tsv"

/-- The first branch condition of the reference dispatch in `main`:
`img_format in RAW_SUFFIX_LST + TIF_PNG_SUFFIX_LST and
ref_path.lower().endswith(img_format.lower())`. -/
def refImageCond (fmt refPath : String) : Prop :=
  fmt ∈ RAW_SUFFIX_LST ++ TIF_PNG_SUFFIX_LST ∧
    endsWithStr (lowerStr refPath) (lowerStr fmt) = true

instance (fmt refPath : String) : Decidable (refImageCond fmt refPath) :=
  inferInstanceAs (Decidable (_ ∧ _))

/-- The reference dispatch of `main` (if / elif `.tsv` / else error-exit). -/
def refDispatch (fmt refPath : String) : Except RefErr RefKind :=
  if refImageCond fmt refPath then .ok .imageExtract
  else if endsWithStr refPath tsvSuffix then .ok .matrixFile
  else .error .unsupportedReferenceFormat

/-- The batch loop of `main`, with the per-image work abstracted as `step`.
Python semantics of an uncaught exception: outputs written before the
failing image persist, the loop (and process) stops at the failure. -/
def batchLoop (step : String → Except PipeErr α) :
    List String → List (String × α) × Option (String × PipeErr)
  | [] => ([], none)
  | img :: rest =>
    match step img with
    | .ok o =>
      let r := batchLoop step rest
      ((img, o) :: r.1, r.2)
    | .error e => ([], some (img, e))

/-- The whole of `main` after argument parsing, reduced to what the claims
need: resolve the reference (aborting with no outputs when the dispatch
fails), then run the batch loop over the selected input files. -/
def mainRun (step : String → Except PipeErr α) (fmt refPath : String)
    (files : List String) :
    Except RefErr (List (String × α) × Option (String × PipeErr)) :=
  match refDispatch fmt refPath with
  | .error e => .error e
  | .ok _ => .ok (batchLoop step (targetImageLst files fmt))

/-- C6: exactly one reference-resolution path is taken, decided by the
source's suffix-declared kind; a source matching neither kind fails with
the unsupported-reference-format error, and in that case `main` exits
before any image is processed (no batch outputs). -/
theorem refDispatch_spec (fmt refPath : String) :
    (refDispatch fmt refPath = .ok .imageExtract ↔ refImageCond fmt refPath) ∧
    (refDispatch fmt refPath = .ok .matrixFile ↔
      ¬ refImageCond fmt refPath ∧ endsWithStr refPath tsvSuffix = true) ∧
    (refDispatch fmt refPath = .error .unsupportedReferenceFormat ↔
      ¬ refImageCond fmt refPath ∧ ¬ endsWithStr refPath tsvSuffix = true) ∧
    (∀ (α : Type) (step : String → Except PipeErr α) files,
      refDispatch fmt refPath = .error .unsupportedReferenceFormat →
      mainRun step fmt refPath files = .error .unsupportedReferenceFormat) := by
  refine ⟨?_, ?_, ?_, ?_⟩ <;>
    first
    | · intro _ step files hd
        simp [mainRun, hd]
    | · unfold refDispatch
        split_ifs with h1 h2 <;> simp_all

/-- C6 witness: a reference path matching neither the declared image format
nor `.tsv` takes the error path, and the run produces no outputs. -/
theorem refDispatch_spec_witness :
    refDispatch "ARW" "ref.xyz" = .error .unsupportedReferenceFormat ∧
    mainRun (fun _ => .ok ()) "ARW" "ref.xyz" [ "a.arw"] =
      .error .unsupportedReferenceFormat := by
  have h := refDispatch_spec "ARW" "ref.xyz"
  have hd : refDispatch "ARW" "ref.xyz" = .error .unsupportedReferenceFormat :=
    (h.2.2.1).mpr (by decide)
  exact ⟨hd, h.2.2.2 Unit (fun _ => .ok ()) [ "a.arw"] hd⟩

/-- C2 (counterexample): in a five-image batch whose second image fails card
detection, the code does not catch the failure at the loop boundary: only
the single image before the failure produces an output (not the four
successful ones) and the remaining images are never processed. -/
theorem batchLoop_abort_cex :
    batchLoop
        (fun s => if s = "b.arw" then .error .cardNotFound else .ok ())
        [ "a.arw", "b.arw", "c.arw", "d.arw", "e.arw"] =
      ([("a.arw", ())], some ("b.arw", PipeErr.cardNotFound)) ∧
    ([("a.arw", ())] : List (String × Unit)).length = 1 ∧ (1 : ℕ) ≠ 4 := by
  refine ⟨?_, rfl, by decide⟩
  decide

/-- C2 (amended): a per-image failure aborts the batch at the failing image:
the outputs are exactly those of the images preceding the first failure (in
order), the failure carries the offending image's path, and the images after
it are not processed. -/
theorem batchLoop_abort_spec {α : Type} (step : String → Except PipeErr α)
    (pre : List String) (img : String) (post : List String) (e : PipeErr)
    (hpre : ∀ x ∈ pre, ∃ o, step x = .ok o) (himg : step img = .error e) :
    ((batchLoop step (pre ++ img :: post)).1.map Prod.fst = pre) ∧
    (batchLoop step (pre ++ img :: post)).2 = some (img, e) := by
  induction pre with
  | nil => simp [batchLoop, himg]
  | cons x xs ih =>
    obtain ⟨o, ho⟩ := hpre x (List.mem_cons_self x xs)
    have hxs := ih (fun y hy => hpre y (List.mem_cons_of_mem x hy))
    simp [batchLoop, ho, hxs.1, hxs.2]

/-- C2 witness: the amended theorem at the concrete five-image batch with a
failure at the second image. -/
theorem batchLoop_abort_spec_witness :
    ((batchLoop
        (fun s => if s = "b.arw" then .error PipeErr.cardNotFound
          else .ok ())
        ([ "a.arw"] ++ "b.arw" :: [ "c.arw", "d.arw", "e.arw"])).1.map
      Prod.fst = [ "a.arw"]) ∧
    (batchLoop
        (fun s => if s = "b.arw" then .error PipeErr.cardNotFound
          else .ok ())
        ([ "a.arw"] ++ "b.arw" :: [ "c.arw", "d.arw", "e.arw"])).2 =
      some ("b.arw", PipeErr.cardNotFound) :=
  batchLoop_abort_spec _ [ "a.arw"] "b.arw" [ "c.arw", "d.arw", "e.arw"]
    PipeErr.cardNotFound
    (by intro x hx; refine ⟨(), ?_⟩; fin_cases hx; rfl)
    (by rfl)

/-! ## Input-file selection and ordering (C9) -/

/-- Lexicographic order on character lists is transitive. -/
theorem charLexLe_trans :
    ∀ a b c : List Char, charLexLe a b = true → charLexLe b c = true →
      charLexLe a c = true
  | [], _, _, _, _ => rfl
  | _ :: _, [], _, hab, _ => by simp [charLexLe] at hab
  | _ :: _, _ :: _, [], _, hbc => by simp [charLexLe] at hbc
  | x :: xs, y :: ys, z :: zs, hab, hbc => by
    by_cases hxy : x = y <;> by_cases hyz : y = z
    · subst hxy; subst hyz
      rw [charLexLe, if_pos rfl] at hab hbc ⊢
      exact charLexLe_trans xs ys zs hab hbc
    · subst hxy
      rw [charLexLe, if_neg hyz] at hbc
      have hlt : x < z := of_decide_eq_true hbc
      rw [charLexLe, if_neg (ne_of_lt hlt)]
      exact decide_eq_true hlt
    · subst hyz
      rw [charLexLe, if_neg hxy] at hab
      have hlt : x < y := of_decide_eq_true hab
      rw [charLexLe, if_neg (ne_of_lt hlt)]
      exact decide_eq_true hlt
    · rw [charLexLe, if_neg hxy] at hab
      rw [charLexLe, if_neg hyz] at hbc
      have h1 : x < y := of_decide_eq_true hab
      have h2 : y < z := of_decide_eq_true hbc
      have hlt : x < z := lt_trans h1 h2
      rw [charLexLe, if_neg (ne_of_lt hlt)]
      exact decide_eq_true hlt

/-- Lexicographic order on character lists is total. -/
theorem charLexLe_total :
    ∀ a b : List Char, (charLexLe a b || charLexLe b a) = true
  | [], _ => by simp [charLexLe]
  | _ :: _, [] => by simp [charLexLe]
  | x :: xs, y :: ys => by
    by_cases hxy : x = y
    · subst hxy
      simpa [charLexLe] using charLexLe_total xs ys
    · rcases lt_or_gt_of_ne hxy with h | h
      · simp [charLexLe, hxy, h]
      · simp [charLexLe, hxy, Ne.symm hxy, h, not_lt_of_gt h]

/-- `strLe` is transitive. -/
theorem strLe_trans (a b c : String) (hab : strLe a b = true)
    (hbc : strLe b c = true) : strLe a c = true :=
  charLexLe_trans a.data b.data c.data hab hbc

/-- `strLe` is total. -/
theorem strLe_total (a b : String) : (strLe a b || strLe b a) = true :=
  charLexLe_total a.data b.data

/-- C9: the batch processes exactly the files whose name, lowercased, ends
with the lowercased image-format token, and processes them in lexicographic
(code-point) filename order: the selected list contains a file iff it is in
the directory listing and suffix-matches, it is sorted lexicographically,
and it is a permutation of the matching files. -/
theorem targetImageLst_spec (files : List String) (fmt : String) :
    (∀ x, x ∈ targetImageLst files fmt ↔
      x ∈ files ∧ endsWithStr (lowerStr x) (lowerStr fmt) = true) ∧
    (targetImageLst files fmt).Pairwise (fun a b => strLe a b = true) ∧
    (targetImageLst files fmt).Perm
      (files.filter (fun x => endsWithStr (lowerStr x) (lowerStr fmt))) := by
  refine ⟨fun x => ?_, ?_, ?_⟩
  · rw [targetImageLst, List.mem_mergeSort, List.mem_filter]
  · exact List.sorted_mergeSort strLe_trans strLe_total _
  · exact List.mergeSort_perm _ _

/-- C9 witness: at a concrete directory listing, a file of an unrelated
suffix is excluded from the processed list. -/
theorem targetImageLst_spec_witness :
    "c.txt" ∉ targetImageLst [ "b.arw", "a.ARW", "c.txt"] "arw" := fun h => by
  have hm :=
    ((targetImageLst_spec [ "b.arw", "a.ARW", "c.txt"] "arw").1 "c.txt").mp h
  exact absurd hm.2 (by decide)

/-! ## The persisted matrix format (C5)

`get_ref_color_matrix.py` line 234 writes each value with the Python format
`f'{x:.8e}'`: scientific form with 8 digits after the decimal point, i.e. a
9-significant-digit mantissa, rounded to nearest (ties to even).  The
formatter is modelled on exact rationals: `sciRound x` is the value denoted
by the formatted text of `x`.  The decimal exponent (the largest `e` with
`10 ^ e ≤ |x|`) is computed by fuel-based base-10 logarithms so that it is
kernel-computable. -/

/-- Fuel-based base-10 logarithm: largest `e` with `10 ^ e ≤ n` (for
`1 ≤ n ≤ fuel`; `0` otherwise). -/
def nlog10go : ℕ → ℕ → ℕ
  | 0, _ => 0
  | fuel + 1, n => if n < 10 then 0 else nlog10go fuel (n / 10) + 1

/-- Largest `e` with `10 ^ e ≤ n`, for `1 ≤ n`. -/
def nlog10 (n : ℕ) : ℕ := nlog10go n n

theorem nlog10go_le : ∀ fuel n, 1 ≤ n → 10 ^ nlog10go fuel n ≤ n
  | 0, n, h => by simpa [nlog10go] using h
  | fuel + 1, n, h => by
    rw [nlog10go]
    split_ifs with h10
    · simpa using h
    · push_neg at h10
      have h1 : 1 ≤ n / 10 := (Nat.one_le_div_iff (by norm_num)).mpr h10
      have ih := nlog10go_le fuel (n / 10) h1
      calc 10 ^ (nlog10go fuel (n / 10) + 1)
          = 10 ^ nlog10go fuel (n / 10) * 10 := by ring
        _ ≤ n / 10 * 10 := Nat.mul_le_mul_right 10 ih
        _ ≤ n := Nat.div_mul_le_self n 10

theorem nlog10_le (n : ℕ) (h : 1 ≤ n) : 10 ^ nlog10 n ≤ n :=
  nlog10go_le n n h

/-- Fuel-based base-10 ceiling logarithm: least `c` with `n ≤ 10 ^ c`
(for `n ≤ fuel`). -/
def nclog10go : ℕ → ℕ → ℕ
  | 0, _ => 0
  | fuel + 1, n => if n ≤ 1 then 0 else nclog10go fuel ((n + 9) / 10) + 1

/-- Least `c` with `n ≤ 10 ^ c`. -/
def nclog10 (n : ℕ) : ℕ := nclog10go n n

theorem nclog10go_ge : ∀ fuel n, n ≤ fuel → n ≤ 10 ^ nclog10go fuel n
  | 0, n, h => by rw [nclog10go, pow_zero]; omega
  | fuel + 1, n, h => by
    rw [nclog10go]
    split_ifs with h1
    · simpa using h1
    · push_neg at h1
      have hm : (n + 9) / 10 ≤ fuel := by omega
      have ih := nclog10go_ge fuel ((n + 9) / 10) hm
      have hn : n ≤ 10 * ((n + 9) / 10) := by omega
      calc n ≤ 10 * ((n + 9) / 10) := hn
        _ ≤ 10 * 10 ^ nclog10go fuel ((n + 9) / 10) :=
            Nat.mul_le_mul_left 10 ih
        _ = 10 ^ (nclog10go fuel ((n + 9) / 10) + 1) := by ring

theorem nclog10_ge (n : ℕ) : n ≤ 10 ^ nclog10 n :=
  nclog10go_ge n n le_rfl

/-- Decimal exponent of a nonzero rational: the largest `e` with
`10 ^ e ≤ |x|` (the `e` of the scientific form `d.dddddddde±xx`). -/
def decExp (x : ℚ) : ℤ :=
  if |x| < 1 then -(nclog10 ⌈|x|⁻¹⌉₊ : ℤ) else (nlog10 ⌊|x|⌋₊ : ℤ)

theorem zpow_decExp_le (x : ℚ) (hx : x ≠ 0) : (10 : ℚ) ^ decExp x ≤ |x| := by
  have hxpos : 0 < |x| := abs_pos.mpr hx
  unfold decExp
  split_ifs with hlt
  · set m : ℕ := ⌈|x|⁻¹⌉₊ with hm
    have hc : (m : ℚ) ≤ (10 : ℚ) ^ nclog10 m := by exact_mod_cast nclog10_ge m
    have hinv : |x|⁻¹ ≤ (10 : ℚ) ^ nclog10 m := le_trans (Nat.le_ceil _) hc
    have hppos : (0 : ℚ) < (10 : ℚ) ^ nclog10 m := by positivity
    have h2 : ((10 : ℚ) ^ nclog10 m)⁻¹ ≤ |x| := by
      rw [inv_le_comm₀ hppos hxpos]
      exact hinv
    calc (10 : ℚ) ^ (-(nclog10 m : ℤ))
        = ((10 : ℚ) ^ (nclog10 m : ℤ))⁻¹ := by rw [zpow_neg]
      _ = ((10 : ℚ) ^ nclog10 m)⁻¹ := by rw [zpow_natCast]
      _ ≤ |x| := h2
  · push_neg at hlt
    have hfl : 1 ≤ ⌊|x|⌋₊ := by
      rw [Nat.one_le_iff_ne_zero, ← Nat.pos_iff_ne_zero]
      exact Nat.floor_pos.mpr hlt
    have h1 : (10 : ℕ) ^ nlog10 ⌊|x|⌋₊ ≤ ⌊|x|⌋₊ := nlog10_le _ hfl
    have h2 : ((10 : ℚ) ^ nlog10 ⌊|x|⌋₊) ≤ (⌊|x|⌋₊ : ℚ) := by exact_mod_cast h1
    calc (10 : ℚ) ^ (nlog10 ⌊|x|⌋₊ : ℤ)
        = (10 : ℚ) ^ nlog10 ⌊|x|⌋₊ := by rw [zpow_natCast]
      _ ≤ (⌊|x|⌋₊ : ℚ) := h2
      _ ≤ |x| := Nat.floor_le (le_of_lt hxpos)

/-- `Batteries.Rat.floor` agrees with the floor of the order structure. -/
theorem ratFloor_eq (x : ℚ) : Rat.floor x = ⌊x⌋ := by
  rw [Rat.floor_def', Rat.floor_def]

/-- Round to nearest integer, ties to even (the rounding of IEEE-style
formatting such as Python's `f'{x:.8e}'`). -/
def rhe (x : ℚ) : ℤ :=
  if x - Rat.floor x < 1 / 2 then Rat.floor x
  else if 1 / 2 < x - Rat.floor x then Rat.floor x + 1
  else if Rat.floor x % 2 = 0 then Rat.floor x else Rat.floor x + 1

/-- Rounding to nearest moves the value by at most one half. -/
theorem rhe_err (x : ℚ) : |(rhe x : ℚ) - x| ≤ 1 / 2 := by
  have h0 : (⌊x⌋ : ℚ) ≤ x := Int.floor_le x
  have h1 : x < ⌊x⌋ + 1 := Int.lt_floor_add_one x
  unfold rhe
  rw [ratFloor_eq]
  split_ifs with ha hb hc <;>
    · rw [abs_le]
      constructor <;> push_cast <;> linarith

/-- The value denoted by the text Python's `f'{x:.8e}'` writes for `x`:
the mantissa keeps 8 digits after the decimal point (9 significant digits),
rounded to nearest. -/
def sciRound (x : ℚ) : ℚ :=
  if x = 0 then 0
  else (rhe (x / (10 : ℚ) ^ (decExp x - 8)) : ℚ) * (10 : ℚ) ^ (decExp x - 8)

/-- Modelled from the spec: the spec describes the persisted values as
"formatted with 8 significant digits in scientific notation", i.e. a
mantissa `d.ddddddd` with 7 digits after the decimal point.  This is the
value such a formatter would write; it is compared against the code's
actual `f'{x:.8e}'` formatter. -/
def spec8sigRound (x : ℚ) : ℚ :=
  if x = 0 then 0
  else (rhe (x / (10 : ℚ) ^ (decExp x - 7)) : ℚ) * (10 : ℚ) ^ (decExp x - 7)

/-- The formatting error is at most half an ulp of the 9-significant-digit
mantissa: relative error at most `1 / (2 * 10 ^ 8)`. -/
theorem sciRound_err (x : ℚ) : |sciRound x - x| ≤ |x| / (2 * 10 ^ 8) := by
  unfold sciRound
  split_ifs with h0
  · simp [h0]
  · set e : ℤ := decExp x with he
    set u : ℚ := (10 : ℚ) ^ (e - 8) with hu
    have hupos : 0 < u := by rw [hu]; positivity
    have hune : u ≠ 0 := ne_of_gt hupos
    have hkey : (rhe (x / u) : ℚ) * u - x = ((rhe (x / u) : ℚ) - x / u) * u := by
      field_simp
    rw [hkey, abs_mul, abs_of_pos hupos]
    have herr := rhe_err (x / u)
    have hle : |(rhe (x / u) : ℚ) - x / u| * u ≤ (1 / 2) * u := by
      exact mul_le_mul_of_nonneg_right herr (le_of_lt hupos)
    refine le_trans hle ?_
    have hxabs : (10 : ℚ) ^ e ≤ |x| := zpow_decExp_le x h0
    have hsplit : u = (10 : ℚ) ^ e / (10 : ℚ) ^ (8 : ℕ) := by
      rw [hu, zpow_sub₀ (by norm_num : (10 : ℚ) ≠ 0)]
      norm_num
    rw [hsplit]
    have hrw : (1 : ℚ) / 2 * ((10 : ℚ) ^ e / 10 ^ 8) =
        (10 : ℚ) ^ e / (2 * 10 ^ 8) := by ring
    rw [hrw]
    gcongr

/-- One formatted row: `'\t'.join(f'{x:.8e}' for x in row)`. -/
def fmtRow (r : List ℚ) : List Tok := r.map (fun x => Tok.num (sciRound x))

/-- The persisted reference-matrix file: one formatted row per line
(`get_ref_color_matrix.py` lines 232-235). -/
def writeRefMatrix (m : ColorMatrix) : List (List Tok) := m.map fmtRow

/-- All rows of a matrix have the length of the first row. -/
def uniformRows (m : ColorMatrix) : Prop :=
  ∀ r ∈ m, r.length = (m.head?.getD []).length

/-- C5 (amended): persisting a ColorMatrix in the reference-matrix text
format (one row per line, tab-separated, scientific form with 8 digits
after the decimal point, i.e. 9 significant digits) and re-parsing yields a
matrix of the same shape whose entries differ from the original by at most
half an ulp of the written mantissa (relative error `1 / (2 * 10 ^ 8)`),
which in particular is within the coarser 8-significant-digit precision the
spec names. -/
theorem writeRefMatrix_roundtrip (m : ColorMatrix)
    (hne : ∀ r ∈ m, r ≠ []) (hu : uniformRows m) :
    read_ref_color_matrix (writeRefMatrix m) =
      .ok (m.map (List.map sciRound)) ∧
    (m.map (List.map sciRound)).length = m.length ∧
    (∀ r ∈ m, (r.map sciRound).length = r.length) ∧
    (∀ r ∈ m, ∀ x ∈ r, |sciRound x - x| ≤ |x| / (2 * 10 ^ 8)) := by
  refine ⟨?_, List.length_map m _, fun r _ => List.length_map r _,
    fun r _ x _ => sciRound_err x⟩
  have hfilter : (writeRefMatrix m).filter (fun l => !l.isEmpty) =
      writeRefMatrix m := by
    apply List.filter_eq_self.mpr
    intro l hl
    rw [writeRefMatrix] at hl
    obtain ⟨r, hr, rfl⟩ := List.mem_map.mp hl
    have : r ≠ [] := hne r hr
    simp [fmtRow, List.isEmpty_iff, this]
  have hnum : (writeRefMatrix m).all (fun l => l.all Tok.isNum) = true := by
    rw [List.all_eq_true]
    intro l hl
    obtain ⟨r, _, rfl⟩ := List.mem_map.mp hl
    rw [List.all_eq_true]
    intro t ht
    obtain ⟨x, _, rfl⟩ := List.mem_map.mp ht
    rfl
  have hsame : sameLengths (writeRefMatrix m) = true := by
    rw [sameLengths, List.all_eq_true]
    intro l hl
    obtain ⟨r, hr, rfl⟩ := List.mem_map.mp hl
    have hlen : (fmtRow r).length = r.length := List.length_map r _
    have hhead : (writeRefMatrix m).head?.getD [] = fmtRow (m.head?.getD []) := by
      cases m with
      | nil => simp at hr
      | cons a as => simp [writeRefMatrix, fmtRow]
    rw [hhead, beq_iff_eq, hlen, fmtRow, List.length_map]
    exact hu r hr
  rw [read_ref_color_matrix]
  rw [hfilter]
  rw [if_pos ⟨hnum, hsame⟩]
  rw [writeRefMatrix]
  rw [List.map_map]
  have hfun : (List.map Tok.val ∘ fmtRow) = List.map sciRound := by
    funext r
    rw [Function.comp_apply, fmtRow, List.map_map]
    rfl
  rw [hfun]

/-- C5 witness: the round-trip theorem at the concrete one-row matrix
`[[2, 1/4]]`. -/
theorem writeRefMatrix_roundtrip_witness :
    read_ref_color_matrix (writeRefMatrix [[2, 1/4]]) =
      .ok ([[2, 1/4]].map (List.map sciRound)) :=
  (writeRefMatrix_roundtrip [[2, 1/4]]
    (by intro r hr; simp at hr; simp [hr])
    (by intro r hr; simp at hr; simp [hr])).1

/-- The decimal exponent of `123456789` is `8`. -/
theorem decExp_cexval : decExp (123456789 : ℚ) = 8 := by
  have habs : |(123456789 : ℚ)| = 123456789 := abs_of_nonneg (by norm_num)
  have hfl : ⌊(123456789 : ℚ)⌋₊ = 123456789 :=
    (Nat.floor_eq_iff (by norm_num)).mpr (by norm_num)
  rw [decExp, if_neg (by rw [habs]; norm_num), habs, hfl]
  norm_num [show nlog10 123456789 = 8 from rfl]

/-- C5 (counterexample): the persisted text format is not
"8 significant digits in scientific notation": the code's `f'{x:.8e}'`
formatter keeps 9 significant digits.  For the entry `123456789` the file
carries the exact value `123456789` (9 significant digits), while an
8-significant-digit scientific formatter would write `1.2345679e+08`,
i.e. `123456790`. -/
theorem sciFormat_digits_cex :
    writeRefMatrix [[(123456789 : ℚ)]] = [[Tok.num (123456789 : ℚ)]] ∧
    spec8sigRound (123456789 : ℚ) = 123456790 ∧
    (123456789 : ℚ) ≠ 123456790 := by
  have hfl9 : Rat.floor (123456789 : ℚ) = 123456789 := by
    rw [ratFloor_eq]
    exact Int.floor_eq_iff.mpr ⟨by norm_num, by norm_num⟩
  have hsci : sciRound (123456789 : ℚ) = 123456789 := by
    rw [sciRound, if_neg (by norm_num), decExp_cexval]
    norm_num [rhe, hfl9]
  have hfl8 : Rat.floor ((123456789 : ℚ) / 10) = 12345678 := by
    rw [ratFloor_eq]
    refine Int.floor_eq_iff.mpr ⟨by norm_num, by norm_num⟩
  refine ⟨?_, ?_, by norm_num⟩
  · rw [writeRefMatrix]
    simp [fmtRow, hsci]
  · rw [spec8sigRound, if_neg (by norm_num), decExp_cexval]
    norm_num [rhe, hfl8]

/-! ## The affine corrector (C3, C4)

`apply_color_correction` hands the resolved source matrix and the reference
matrix to `pcv.transform.affine_color_correction` (lines 284-294).  That
solver is an external collaborator (PlantCV), so it is modelled from the
spec (section 4.4): drop the patch-label column, fit by least squares an
affine (offset plus linear) map sending the source channel rows onto the
corresponding target channel rows, apply it to every pixel of the
extraction raster, and clamp each channel to the valid intensity range.
The least-squares fit is realized by the normal equations,
`M = (Aᵀ A)⁻¹ (Aᵀ T)` for the one-augmented design matrix `A`; matrices of
unequal shape fail (in the script, the numpy subtraction at line 273 and
the solver both raise on mismatched shapes). -/

/-- Number of rows of a color matrix. -/
def nRows (m : ColorMatrix) : ℕ := m.length

/-- Number of columns of a color matrix (length of its first row). -/
def nCols (m : ColorMatrix) : ℕ := (m.head?.getD []).length

/-- Entry access, defaulting to `0` (total model of indexing; the shape
guard makes the defaults unreachable). -/
def entry (m : ColorMatrix) (i j : ℕ) : ℚ := (m[i]?.getD []).getD j 0

/-- The channel part of a color matrix (columns 1-3, dropping the patch
label column, as the solver does with `matrix[:, 1:]`). -/
def chanMatrix (n : ℕ) (m : ColorMatrix) : Matrix (Fin n) (Fin 3) ℚ :=
  Matrix.of fun i c => entry m i.val (c.val + 1)

/-- A pixel augmented with a leading `1` (for the affine offset). -/
def augPix (p : Pix) : Fin 4 → ℚ := Fin.cons 1 p

/-- The design matrix of the affine fit: a column of ones prepended to the
source channel matrix. -/
def augMatrix {n : ℕ} (Sm : Matrix (Fin n) (Fin 3) ℚ) :
    Matrix (Fin n) (Fin 4) ℚ :=
  Matrix.of fun i => augPix (Sm i)

/-- Executable inverse of a square rational matrix via the adjugate
(the zero matrix when the determinant vanishes). -/
def matInv4 (M : Matrix (Fin 4) (Fin 4) ℚ) : Matrix (Fin 4) (Fin 4) ℚ :=
  M.det⁻¹ • M.adjugate

/-- `matInv4` is a left inverse on nonsingular matrices. -/
theorem matInv4_mul (M : Matrix (Fin 4) (Fin 4) ℚ) (h : M.det ≠ 0) :
    matInv4 M * M = 1 := by
  rw [matInv4, Matrix.smul_mul, Matrix.adjugate_mul, smul_smul,
    inv_mul_cancel₀ h, one_smul]

/-- Modelled from the spec: the least-squares affine fit of
`pcv.transform.affine_color_correction` (external collaborator), via the
normal equations. -/
def fitAffine {n : ℕ} (Sm Tm : Matrix (Fin n) (Fin 3) ℚ) :
    Matrix (Fin 4) (Fin 3) ℚ :=
  matInv4 ((augMatrix Sm).transpose * augMatrix Sm) *
    ((augMatrix Sm).transpose * Tm)

/-- Apply a fitted affine map to one pixel. -/
def applyAffine (M : Matrix (Fin 4) (Fin 3) ℚ) (p : Pix) : Pix :=
  fun c => ∑ j, augPix p j * M j c

/-- Clamp a pixel's channels to the valid intensity range `[0, 255]`. -/
def clampPix (p : Pix) : Pix := fun c => max 0 (min 255 (p c))

/-- Every pixel of the raster has channels in the valid range. -/
def rasterInRange (r : Raster) : Prop :=
  ∀ row ∈ r, ∀ p ∈ row, ∀ c, 0 ≤ p c ∧ p c ≤ 255

instance (m : ColorMatrix) : Decidable (uniformRows m) := by
  unfold uniformRows; infer_instance

/-- Modelled from the spec: `ColorCorrector.correct` — check the shapes,
fit the affine map from the source matrix to the reference matrix, apply
it to every pixel, clamp. -/
def correct (r : Raster) (S T : ColorMatrix) : Except PipeErr Raster :=
  if uniformRows S ∧ uniformRows T ∧ nRows S = nRows T ∧ nCols S = nCols T ∧
      nCols S = 4 then
    .ok (r.map (List.map (fun p =>
      clampPix (applyAffine
        (fitAffine (chanMatrix (nRows S) S) (chanMatrix (nRows S) T)) p))))
  else .error .matrixShapeMismatch

/-- The affine map that is exactly the identity: zero offset, identity
linear part. -/
def affineId : Matrix (Fin 4) (Fin 3) ℚ :=
  Matrix.of fun j c => if j = c.succ then 1 else 0

theorem augMatrix_mul_affineId {n : ℕ} (Sm : Matrix (Fin n) (Fin 3) ℚ) :
    augMatrix Sm * affineId = Sm := by
  ext i c
  rw [Matrix.mul_apply]
  simp only [augMatrix, affineId, Matrix.of_apply, mul_ite, mul_one, mul_zero]
  rw [Finset.sum_ite_eq' Finset.univ c.succ (augPix (Sm i))]
  simp [augPix, Fin.cons_succ]

theorem fitAffine_self {n : ℕ} (Sm : Matrix (Fin n) (Fin 3) ℚ)
    (hdet : ((augMatrix Sm).transpose * augMatrix Sm).det ≠ 0) :
    fitAffine Sm Sm = affineId := by
  have h : (augMatrix Sm).transpose * Sm =
      ((augMatrix Sm).transpose * augMatrix Sm) * affineId := by
    rw [Matrix.mul_assoc, augMatrix_mul_affineId]
  rw [fitAffine, h, ← Matrix.mul_assoc, matInv4_mul _ hdet, Matrix.one_mul]

theorem applyAffine_affineId (p : Pix) : applyAffine affineId p = p := by
  funext c
  rw [applyAffine]
  simp only [affineId, Matrix.of_apply, mul_ite, mul_one, mul_zero]
  rw [Finset.sum_ite_eq' Finset.univ c.succ (augPix p)]
  simp [augPix, Fin.cons_succ]

theorem clampPix_of_inRange (p : Pix) (h : ∀ c, 0 ≤ p c ∧ p c ≤ 255) :
    clampPix p = p := by
  funext c
  rw [clampPix, min_eq_right (h c).2, max_eq_right (h c).1]

/-- C3: applying color correction with a source matrix identical to the
reference matrix returns the extraction raster unchanged (exactly, in the
exact-rational model): the least-squares affine fit degenerates to the
identity map, and clamping fixes in-range pixels.  Hypotheses: the matrix
is well-shaped, the design matrix has full column rank (nonzero normal
determinant), and the raster's channels are in the valid range. -/
theorem correct_identity (r : Raster) (S : ColorMatrix)
    (hu : uniformRows S) (h4 : nCols S = 4)
    (hdet : ((augMatrix (chanMatrix (nRows S) S)).transpose *
      augMatrix (chanMatrix (nRows S) S)).det ≠ 0)
    (hr : rasterInRange r) :
    correct r S S = .ok r := by
  rw [correct, if_pos ⟨hu, hu, rfl, rfl, h4⟩]
  rw [fitAffine_self _ hdet]
  congr 1
  have hrow : ∀ row ∈ r,
      row.map (fun p => clampPix (applyAffine affineId p)) = row := by
    intro row hrow
    have : ∀ p ∈ row, clampPix (applyAffine affineId p) = p := by
      intro p hp
      rw [applyAffine_affineId]
      exact clampPix_of_inRange p (hr row hrow p hp)
    calc row.map (fun p => clampPix (applyAffine affineId p))
        = row.map id := List.map_congr_left this
      _ = row := List.map_id row
  calc r.map (List.map (fun p => clampPix (applyAffine affineId p)))
      = r.map id := List.map_congr_left hrow
    _ = r := List.map_id r

/-- The concrete 4-patch source matrix used by the witnesses (labels 1-4,
channel rows forming an affinely independent set). -/
def witS : ColorMatrix := [[1,0,0,0],[2,1,0,0],[3,0,1,0],[4,0,0,1]]

/-- The explicit design matrix of `witS`. -/
def witA : Matrix (Fin 4) (Fin 4) ℚ := !![1,0,0,0; 1,1,0,0; 1,0,1,0; 1,0,0,1]

theorem witA_eq : augMatrix (chanMatrix (nRows witS) witS) = witA := by
  ext i c
  fin_cases i <;> fin_cases c <;> rfl

theorem witA_det : ((augMatrix (chanMatrix (nRows witS) witS)).transpose *
    augMatrix (chanMatrix (nRows witS) witS)).det ≠ 0 := by
  rw [witA_eq, Matrix.det_mul, Matrix.det_transpose]
  have : witA.det = 1 := by
    simp [witA, Matrix.det_succ_row_zero, Fin.sum_univ_succ]
  rw [this]
  norm_num

/-- C3 witness: the identity theorem at a concrete raster and matrix. -/
theorem correct_identity_witness :
    correct [[![5, 6, 7]]] witS witS = .ok [[![5, 6, 7]]] :=
  correct_identity [[![5, 6, 7]]] witS
    (by decide)
    rfl
    witA_det
    (by
      intro row hrow p hp c
      rw [List.mem_singleton] at hrow
      subst hrow
      rw [List.mem_singleton] at hp
      subst hp
      fin_cases c <;> constructor <;> norm_num)

/-- C4: matrices whose row or column counts differ make the correction
fail with the shape-mismatch error; no output raster is produced. -/
theorem correct_shape_mismatch (r : Raster) (S T : ColorMatrix)
    (h : nRows S ≠ nRows T ∨ nCols S ≠ nCols T) :
    correct r S T = .error .matrixShapeMismatch := by
  rw [correct, if_neg]
  rintro ⟨_, _, h1, h2, _⟩
  rcases h with h | h
  · exact h h1
  · exact h h2

/-- C4 witness: a 4-row source against a 2-row reference fails with the
shape-mismatch error. -/
theorem correct_shape_mismatch_witness :
    correct [[![5, 6, 7]]] witS [[1,2,3,4],[5,6,7,8]] =
      .error .matrixShapeMismatch :=
  correct_shape_mismatch [[![5, 6, 7]]] witS [[1,2,3,4],[5,6,7,8]]
    (Or.inl (by decide))

/-! ## Decode profiles and the per-image pipeline (C8, C10)

`rawpy.postprocess` keyword arguments are modelled literally.  Rasters carry
the profile they were decoded under; the PlantCV patch sampler
(`pcv.transform.get_color_matrix`, an external collaborator) is modelled
from the spec as the per-label channel means over the masked raster, rows in
ascending label order, each row `[label, mean ch0, mean ch1, mean ch2]`.
`np.flipud` reverses the row order of an array without touching its
argument. -/

/-- The `rawpy.postprocess` options the scripts pass. -/
structure DecodeParams where
  output_bps : ℕ
  no_auto_bright : Bool
  use_camera_wb : Bool
  use_auto_wb : Bool
  no_auto_scale : Bool
  four_color_rgb : Bool
deriving DecidableEq

/-- The detection decode profile (`detect_color_card`, lines 109-117):
auto brightness on, auto white balance on. -/
def detectionParams : DecodeParams :=
  { output_bps := 8, no_auto_bright := false, use_camera_wb := false,
    use_auto_wb := true, no_auto_scale := false, four_color_rgb := false }

/-- The extraction decode profile (`apply_color_correction` lines 241-249
and `get_ref_color_matrix` lines 182-190): auto brightness off, auto white
balance off. -/
def extractionParams : DecodeParams :=
  { output_bps := 8, no_auto_bright := true, use_camera_wb := false,
    use_auto_wb := false, no_auto_scale := false, four_color_rgb := false }

/-- How a raster was produced: a RAW decode under given parameters, or a
plain `cv2.imread` of a TIFF/PNG (which applies no auto white balance or
auto brightness). -/
inductive SrcProfile
  | rawDecoded (p : DecodeParams)
  | plainDecoded
deriving DecidableEq

/-- Did the decode apply automatic white balance? -/
def SrcProfile.autoWB : SrcProfile → Bool
  | .rawDecoded p => p.use_auto_wb
  | .plainDecoded => false

/-- Did the decode apply automatic brightness? -/
def SrcProfile.autoBright : SrcProfile → Bool
  | .rawDecoded p => !p.no_auto_bright
  | .plainDecoded => false

/-- The extraction-profile invariant on a decode: no auto white balance and
no auto brightness. -/
def extractionDecoded (s : SrcProfile) : Prop :=
  s.autoWB = false ∧ s.autoBright = false

/-- A raster together with the profile it was decoded under. -/
structure TaggedRaster where
  img : Raster
  src : SrcProfile

/-- The external collaborators of the pipeline: the RAW decoder, the plain
image reader, and the card locator. -/
structure PipelineEnv where
  rawDecode : String → DecodeParams → Raster
  cvDecode : String → Raster
  locateCard : Raster → Except PipeErr Mask

/-- The shared read block of `apply_color_correction` and
`get_ref_color_matrix`: RAW formats are decoded with the given parameters,
anything else is read with `cv2.imread`. -/
def readImage (env : PipelineEnv) (fmt path : String)
    (params : DecodeParams) : TaggedRaster :=
  if fmt ∈ RAW_SUFFIX_LST then ⟨env.rawDecode path params, .rawDecoded params⟩
  else ⟨env.cvDecode path, .plainDecoded⟩

/-- `detect_color_card` (lines 91-145): decode under the detection profile
(RAW) or read plainly (TIFF/PNG), then locate the card; any other format is
an error (the script prints and exits).  Only the mask is returned; the
detection-profile raster never leaves this function. -/
def detect_color_card (env : PipelineEnv) (fmt path : String) :
    Except PipeErr Mask :=
  if fmt ∈ RAW_SUFFIX_LST then
    env.locateCard (env.rawDecode path detectionParams)
  else if fmt ∈ TIF_PNG_SUFFIX_LST then
    env.locateCard (env.cvDecode path)
  else .error .unsupportedImageFormat

/-- `np.flipud`: a new array with the row order reversed; the argument is
not modified. -/
def flipud (m : List α) : List α := m.reverse

/-- All (pixel, label) cells of a raster under a mask, row by row. -/
def cellList (img : Raster) (mask : Mask) : List (Pix × ℕ) :=
  ((img.zip mask).map (fun rm => rm.1.zip rm.2)).flatten

/-- The nonzero labels present, in ascending order. -/
def chipLabels (cells : List (Pix × ℕ)) : List ℕ :=
  (((cells.map Prod.snd).filter (fun l => !(l == 0))).toFinset).sort (· ≤ ·)

/-- Mean pixel of the cells carrying a given label. -/
def chipMean (cells : List (Pix × ℕ)) (lab : ℕ) : Pix := fun c =>
  ((cells.filter (fun x => x.2 == lab)).map (fun x => x.1 c)).sum /
    ((cells.filter (fun x => x.2 == lab)).length : ℚ)

/-- Modelled from the spec: `pcv.transform.get_color_matrix` (external
collaborator, the PatchMatrixExtractor): one row per patch label in
canonical (ascending-label) order, each row the label followed by the
channel means of the pixels the mask assigns to that label. -/
def getColorMatrix (img : Raster) (mask : Mask) : ColorMatrix :=
  (chipLabels (cellList img mask)).map
    (fun (lab : ℕ) =>
      (lab : ℚ) :: List.ofFn (fun c => chipMean (cellList img mask) lab c))

/-- A color matrix together with the decode profile of the raster it was
sampled from. -/
structure TaggedMatrix where
  mat : ColorMatrix
  src : SrcProfile

/-- Patch-matrix extraction, keeping the raster's profile tag. -/
def getColorMatrixT (tr : TaggedRaster) (mask : Mask) : TaggedMatrix :=
  ⟨getColorMatrix tr.img mask, tr.src⟩

/-- Orientation selection on tagged matrices (same comparison as
`selectOrientation`). -/
def selectOrientationT (a b : TaggedMatrix) (ref : ColorMatrix) :
    TaggedMatrix :=
  if normSqDiff b.mat ref ≤ normSqDiff a.mat ref then b else a

theorem selectOrientationT_mat (a b : TaggedMatrix) (ref : ColorMatrix) :
    (selectOrientationT a b ref).mat = selectOrientation a.mat b.mat ref := by
  rw [selectOrientationT, selectOrientation]
  split_ifs <;> rfl

/-- `apply_color_correction` (lines 223-294): read the image under the
extraction profile, sample the card matrix with the mask and with the
vertically flipped mask over the same raster, pick the orientation closer
to the reference, and correct. -/
def apply_color_correction (env : PipelineEnv) (fmt path : String)
    (mask : Mask) (refM : ColorMatrix) : Except PipeErr Raster :=
  let tr := readImage env fmt path extractionParams
  let cm := getColorMatrixT tr mask
  let cmud := getColorMatrixT tr (flipud mask)
  correct tr.img (selectOrientationT cm cmud refM).mat refM

/-- `get_ref_color_matrix` (lines 148-206): detect the card on the
detection-profile raster, then sample the reference matrix from a fresh
extraction-profile read. -/
def get_ref_color_matrix (env : PipelineEnv) (fmt path : String) :
    Except PipeErr TaggedMatrix :=
  match detect_color_card env fmt path with
  | .error e => .error e
  | .ok mask =>
    .ok (getColorMatrixT (readImage env fmt path extractionParams) mask)

/-- C8: every color matrix handed to the affine solve was sampled from a
raster decoded under the extraction profile (auto white balance off, auto
brightness off): the per-image source matrix (in either orientation) and
the reference matrix extracted from a reference image both carry an
extraction-profile tag, `apply_color_correction` is exactly the solve on
that matrix over the extraction-profile raster, and the detection decode —
which has auto white balance and auto brightness ON for RAW input and so is
not extraction-compatible — is used only inside the locator call, which
returns a mask. -/
theorem extraction_profile_invariant (env : PipelineEnv)
    (fmt path : String) (mask : Mask) (refM : ColorMatrix) :
    extractionDecoded (selectOrientationT
      (getColorMatrixT (readImage env fmt path extractionParams) mask)
      (getColorMatrixT (readImage env fmt path extractionParams)
        (flipud mask)) refM).src ∧
    apply_color_correction env fmt path mask refM =
      correct (readImage env fmt path extractionParams).img
        (selectOrientationT
          (getColorMatrixT (readImage env fmt path extractionParams) mask)
          (getColorMatrixT (readImage env fmt path extractionParams)
            (flipud mask)) refM).mat refM ∧
    (∀ tm, get_ref_color_matrix env fmt path = .ok tm →
      extractionDecoded tm.src) ∧
    (fmt ∈ RAW_SUFFIX_LST →
      SrcProfile.autoWB (.rawDecoded detectionParams) = true ∧
      SrcProfile.autoBright (.rawDecoded detectionParams) = true ∧
      ¬ extractionDecoded (.rawDecoded detectionParams)) := by
  have hread : extractionDecoded (readImage env fmt path extractionParams).src := by
    rw [readImage]
    split_ifs <;> exact ⟨rfl, rfl⟩
  have hsel : (selectOrientationT
      (getColorMatrixT (readImage env fmt path extractionParams) mask)
      (getColorMatrixT (readImage env fmt path extractionParams)
        (flipud mask)) refM).src =
      (readImage env fmt path extractionParams).src := by
    rw [selectOrientationT]
    split_ifs <;> rfl
  refine ⟨by rw [hsel]; exact hread, rfl, ?_, ?_⟩
  · intro tm htm
    rw [get_ref_color_matrix] at htm
    cases hd : detect_color_card env fmt path with
    | error e => rw [hd] at htm; exact absurd htm (by simp)
    | ok m =>
      rw [hd] at htm
      have : tm = getColorMatrixT (readImage env fmt path extractionParams) m := by
        exact (Except.ok.injEq _ _).mp htm.symm
      rw [this]
      exact hread
  · intro _
    exact ⟨rfl, rfl, fun hcontra => by
      have := hcontra.1
      simp [SrcProfile.autoWB, detectionParams] at this⟩

/-- C8 witness: the invariant at a concrete environment and RAW image. -/
theorem extraction_profile_invariant_witness :
    SrcProfile.autoWB (.rawDecoded detectionParams) = true ∧
    SrcProfile.autoBright (.rawDecoded detectionParams) = true ∧
    ¬ extractionDecoded (.rawDecoded detectionParams) :=
  (extraction_profile_invariant
    ⟨fun _ _ => [], fun _ => [], fun _ => .error .cardNotFound⟩
    "ARW" "a.ARW" [] []).2.2.2 (by decide)

/-! ## Vertical flip is pure, and sampling is mask-driven (C10) -/

theorem zip_reverse_eq {α β : Type} (a : List α) (b : List β)
    (h : a.length = b.length) :
    a.reverse.zip b.reverse = (a.zip b).reverse := by
  induction a generalizing b with
  | nil =>
    cases b with
    | nil => rfl
    | cons y ys => simp at h
  | cons x xs ih =>
    cases b with
    | nil => simp at h
    | cons y ys =>
      have hlen : xs.length = ys.length := by simpa using h
      rw [List.reverse_cons, List.reverse_cons,
        List.zip_append (by simp [hlen]), ih ys hlen]
      simp

theorem flatten_reverse_perm {α : Type} (l : List (List α)) :
    l.reverse.flatten.Perm l.flatten := by
  induction l with
  | nil => exact List.Perm.refl _
  | cons x xs ih =>
    rw [List.reverse_cons, List.flatten_append, List.flatten_cons]
    have h1 : (xs.reverse.flatten ++ [x].flatten).Perm
        (xs.flatten ++ [x].flatten) := ih.append_right _
    have h3 : ([x] : List (List α)).flatten = x := by simp
    exact h1.trans (List.perm_append_comm.trans (by rw [h3, List.flatten_cons]))

/-- Zipping a raster against the flipped mask lists, in reverse order, the
same pairs as zipping the flipped raster against the original mask. -/
theorem zip_flip (img : Raster) (mask : Mask) (h : img.length = mask.length) :
    img.zip (flipud mask) = ((flipud img).zip mask).reverse := by
  have hz := zip_reverse_eq img.reverse mask (by simpa using h)
  rw [List.reverse_reverse] at hz
  rw [flipud, flipud, hz]

/-- The cells sampled with the mirrored mask over a raster are a
permutation of the cells sampled with the original mask over the mirrored
raster. -/
theorem cellList_flip_perm (img : Raster) (mask : Mask)
    (h : img.length = mask.length) :
    (cellList img (flipud mask)).Perm (cellList (flipud img) mask) := by
  rw [cellList, cellList, zip_flip img mask h, List.map_reverse]
  exact flatten_reverse_perm _

/-- Mask-driven sampling: extracting with the vertically mirrored mask over
a raster equals extracting with the original mask over the vertically
mirrored raster. -/
theorem getColorMatrix_flip (img : Raster) (mask : Mask)
    (h : img.length = mask.length) :
    getColorMatrix img (flipud mask) = getColorMatrix (flipud img) mask := by
  have hperm := cellList_flip_perm img mask h
  have hlab : chipLabels (cellList img (flipud mask)) =
      chipLabels (cellList (flipud img) mask) := by
    rw [chipLabels, chipLabels]
    congr 1
    exact List.toFinset_eq_of_perm _ _ ((hperm.map Prod.snd).filter _)
  have hmean : ∀ lab : ℕ, chipMean (cellList img (flipud mask)) lab =
      chipMean (cellList (flipud img) mask) lab := by
    intro lab
    funext c
    have hf := hperm.filter (fun x => x.2 == lab)
    rw [chipMean, chipMean, (hf.map (fun x => x.1 c)).sum_eq, hf.length_eq]
  rw [getColorMatrix, getColorMatrix, hlab]
  apply List.map_congr_left
  intro lab _
  rw [hmean lab]

/-- C10: the vertical flip used in orientation resolution is a pure
transform — it produces the reversed-row mask, is an involution (the
original mask is recovered unchanged), and the code extracts the flipped
candidate by re-running patch extraction with the mirrored mask over the
same raster (the raster is not mirrored), comparing each candidate against
the reference independently; moreover, since sampling is mask-driven,
mirroring the mask over the raster samples exactly what mirroring the
raster under the original mask would. -/
theorem flipud_frame_spec (env : PipelineEnv) (fmt path : String)
    (mask : Mask) (refM : ColorMatrix) :
    flipud mask = mask.reverse ∧
    flipud (flipud mask) = mask ∧
    apply_color_correction env fmt path mask refM =
      correct (readImage env fmt path extractionParams).img
        (selectOrientation
          (getColorMatrix (readImage env fmt path extractionParams).img mask)
          (getColorMatrix (readImage env fmt path extractionParams).img
            (flipud mask)) refM) refM ∧
    (∀ img : Raster, img.length = mask.length →
      getColorMatrix img (flipud mask) = getColorMatrix (flipud img) mask) := by
  refine ⟨rfl, List.reverse_reverse mask, ?_, fun img h => getColorMatrix_flip img mask h⟩
  rw [apply_color_correction]
  rw [selectOrientationT_mat]
  rfl

/-- C10 witness: the frame theorem at a concrete two-row raster and mask;
the mirrored-mask extraction agrees with extraction from the mirrored
raster. -/
theorem flipud_frame_spec_witness :
    getColorMatrix [[![1, 2, 3]], [![4, 5, 6]]] (flipud [[1], [2]]) =
      getColorMatrix (flipud [[![1, 2, 3]], [![4, 5, 6]]]) [[1], [2]] :=
  (flipud_frame_spec
    ⟨fun _ _ => [], fun _ => [], fun _ => .error .cardNotFound⟩
    "ARW" "a.ARW" [[1], [2]] []).2.2.2
    [[![1, 2, 3]], [![4, 5, 6]]] (by decide)

end ColorCorrection
